import Mathlib

/-!
Shallow embedding of the spectral-analysis core of `src/lib/audioProcessor.ts`
(class `AudioProcessor`): window generation, radix-2 FFT, magnitude/phase
spectra, peak detection, harmonic grouping, spectral statistics, envelope
extraction, spectrogram synthesis and the `analyze` orchestrator.

JS numbers are modelled by the real numbers `ℝ`; JS arrays of numbers by
`List ℝ` (with `List.getD _ 0` for reads that the source only performs in
range).  The one place where the source can read a *fractional* array index
(the envelope extractor, when the 10 ms window width is odd) is modelled
exactly, with `Option ℝ` standing for "number or NaN-from-undefined".
`Math.floor` is `Int.floor`.
-/

set_option maxHeartbeats 1600000
set_option linter.unusedVariables false

noncomputable section

namespace WavArtist

/-- One detected spectral peak (interface `SpectralFeature`). -/
structure SpectralFeature where
  frequency : ℝ
  magnitude : ℝ
  phase : ℝ
  bandwidth : ℝ
  deriving DecidableEq

instance : Inhabited SpectralFeature := ⟨⟨0, 0, 0, 0⟩⟩

/-- One harmonic series (interface `HarmonicSeries`). -/
structure HarmonicSeries where
  fundamental : ℝ
  overtones : List SpectralFeature
  strength : ℝ
  inharmonicity : ℝ

/-- Analysis settings (interface `AnalysisSettings`).  The three sizes are
natural numbers (the source uses them as array lengths / loop counters). -/
structure AnalysisSettings where
  fftSize : ℕ
  windowSize : ℕ
  hopSize : ℕ
  minFreq : ℝ
  maxFreq : ℝ
  harmonicThreshold : ℝ
  noiseFloor : ℝ

/-- The aggregate result of one `analyze` call (interface `AnalysisResult`).
`envelope` entries are `Option ℝ`: `none` models the NaN that the source
produces when the envelope window reads a fractional index. -/
structure AnalysisResult where
  spectralFeatures : List SpectralFeature
  harmonics : List HarmonicSeries
  fundamentalFreq : Option ℝ
  spectralCentroid : ℝ
  spectralRolloff : ℝ
  spectralFlux : ℝ
  rmsLevel : ℝ
  peakLevel : ℝ
  sampleRate : ℝ
  duration : ℝ
  envelope : List (Option ℝ)
  spectrogram : List (List ℝ)

/-- Source `createWindow` (lines 54-69): Blackman-Harris coefficients
`w[i] = a0 - a1 cos(2πi/(N-1)) + a2 cos(4πi/(N-1)) - a3 cos(6πi/(N-1))`.
The source performs no validation of `size`. -/
def createWindow (size : ℕ) : List ℝ :=
  (List.range size).map fun (i : ℕ) =>
    0.35875
      - 0.48829 * Real.cos (2 * Real.pi * (i : ℝ) / ((size : ℝ) - 1))
      + 0.14128 * Real.cos (4 * Real.pi * (i : ℝ) / ((size : ℝ) - 1))
      - 0.01168 * Real.cos (6 * Real.pi * (i : ℝ) / ((size : ℝ) - 1))

/-- The inner `while` of the bit-reversal loop in `fft` (lines 85-90):
`bit = N >> 1; while (j & bit) { j ^= bit; bit >>= 1 }; j ^= bit`. -/
def revInc (j bit : ℕ) : ℕ :=
  if h : bit = 0 then j
  else if j &&& bit ≠ 0 then revInc (j ^^^ bit) (bit / 2)
  else j ^^^ bit
termination_by bit
decreasing_by exact Nat.div_lt_self (Nat.pos_of_ne_zero h) one_lt_two

/-- Swap entries `a` and `b` of a list (the destructuring swap in `fft`). -/
def swapAt2 (xs : List ℝ) (a b : ℕ) : List ℝ :=
  (xs.set a (xs.getD b 0)).set b (xs.getD a 0)

/-- The bit-reversal permutation pass of `fft` (lines 82-96): `j` persists
across iterations of `i = 1 .. N-1`, and entries `i`, `j` are swapped
whenever `i < j`. -/
def bitRev (N : ℕ) (re im : List ℝ) : List ℝ × List ℝ :=
  (((List.range' 1 (N - 1)).foldl
      (fun st i =>
        let j := revInc st.1 (N / 2)
        if i < j then (j, swapAt2 st.2.1 i j, swapAt2 st.2.2 i j)
        else (j, st.2.1, st.2.2))
      (0, re, im))).2

/-- One butterfly of the Cooley-Tukey stage (lines 102-114), updating the
four entries at `base + j` and `base + j + len/2`. -/
def butterflyInner (len base : ℕ) (st : List ℝ × List ℝ) (j : ℕ) :
    List ℝ × List ℝ :=
  let re := st.1
  let im := st.2
  let wr := Real.cos (2 * Real.pi / (len : ℝ) * (j : ℝ))
  let wi := Real.sin (2 * Real.pi / (len : ℝ) * (j : ℝ))
  let u := re.getD (base + j) 0
  let v := im.getD (base + j) 0
  let x := re.getD (base + j + len / 2) 0
  let y := im.getD (base + j + len / 2) 0
  ((re.set (base + j) (u + (wr * x - wi * y))).set (base + j + len / 2)
      (u - (wr * x - wi * y)),
   (im.set (base + j) (v + (wi * x + wr * y))).set (base + j + len / 2)
      (v - (wi * x + wr * y)))

/-- One stage of the Cooley-Tukey FFT for span `len` (lines 99-116): blocks
start at multiples of `len`, and `j` ranges over `[0, len/2)`. -/
def butterflyStage (N len : ℕ) (st : List ℝ × List ℝ) : List ℝ × List ℝ :=
  (List.range ((N + len - 1) / len)).foldl
    (fun st b => (List.range (len / 2)).foldl (butterflyInner len (b * len)) st)
    st

/-- Source `fft` (lines 71-119): copy the signal into `real` (with `imag = 0`),
apply the bit-reversal permutation, then run the butterfly stages for
`len = 2, 4, ..., 2 ^ log2 N`. -/
def fft (signal : List ℝ) : List ℝ × List ℝ :=
  let N := signal.length
  (List.range (Nat.log2 N)).foldl
    (fun st s => butterflyStage N (2 ^ (s + 1)) st)
    (bitRev N signal (List.replicate N 0))

/-- Source `getMagnitudeSpectrum` (lines 121-127): `sqrt(re²+im²)` on the first
half of the FFT output. -/
def getMagnitudeSpectrum (re im : List ℝ) : List ℝ :=
  (List.range (re.length / 2)).map fun (i : ℕ) =>
    Real.sqrt (re.getD i 0 * re.getD i 0 + im.getD i 0 * im.getD i 0)

/-- Source `getPhaseSpectrum` (lines 129-135): `atan2(im, re)` on the first half of
the FFT output; `atan2(y, x)` is the argument of the complex number `x + yi`.
(Computed by the source but never consumed by `analyze`.) -/
def getPhaseSpectrum (re im : List ℝ) : List ℝ :=
  (List.range (re.length / 2)).map fun (i : ℕ) =>
    Complex.arg ⟨re.getD i 0, im.getD i 0⟩

/-- Source `Math.max(...spectrum)` (line 139) for the nonempty spectra the source
feeds it: fold `max` over the list, seeded with its first element. -/
def spectrumMax (l : List ℝ) : ℝ :=
  l.foldl max (l.headD 0)

/-- The bandwidth-estimation loop of `findPeaks` (lines 170-176): walk
`j = 1 .. 19` and stop at the first `j` with `i - j ≥ 0` and
`spectrum[i-j] < 0.707 * magnitude`; the result defaults to one bin width
(`freqResolution`). -/
def bandwidthLoop (spectrum : List ℝ) (i : ℕ) (m freqRes : ℝ) (j : ℕ) : ℝ :=
  if h : 20 ≤ j then freqRes
  else if j ≤ i ∧ spectrum.getD (i - j) 0 < m * 0.707 then (j : ℝ) * freqRes
  else bandwidthLoop spectrum i m freqRes (j + 1)
termination_by 20 - j
decreasing_by omega

/-- Bandwidth of the peak at bin `i` with magnitude `m` (lines 169-176). -/
def estimateBandwidth (spectrum : List ℝ) (i : ℕ) (m freqRes : ℝ) : ℝ :=
  bandwidthLoop spectrum i m freqRes 1

/-- The body of the peak-detection loop of `findPeaks` (lines 142-186) at
bin `i`: the local-maximum test against `threshold` and the four nearest
neighbours, quadratic interpolation with the offset clamped to `[-1, 1]`,
the `[minFreq, maxFreq]` filter, and the bandwidth estimate. -/
def peakFeatureAt (s : AnalysisSettings) (freqRes threshold : ℝ)
    (spectrum : List ℝ) (i : ℕ) : Option SpectralFeature :=
  let m := spectrum.getD i 0
  if m > threshold ∧ m > spectrum.getD (i - 1) 0 ∧ m > spectrum.getD (i + 1) 0 ∧
      m > spectrum.getD (i - 2) 0 ∧ m > spectrum.getD (i + 2) 0 then
    let y1 := spectrum.getD (i - 1) 0
    let y3 := spectrum.getD (i + 1) 0
    let a := (y1 - 2 * m + y3) / 2
    let b := (y3 - y1) / 2
    let offset := if a ≠ 0 then max (-1) (min 1 (-b / (2 * a))) else 0
    let frequency := ((i : ℝ) + offset) * freqRes
    if s.minFreq ≤ frequency ∧ frequency ≤ s.maxFreq then
      some ⟨frequency, m, 0, estimateBandwidth spectrum i m freqRes⟩
    else none
  else none

/-- The descending-magnitude order used by `features.sort((a, b) =>
b.magnitude - a.magnitude)` (line 189). -/
def magGE (a b : SpectralFeature) : Prop := b.magnitude ≤ a.magnitude

instance : DecidableRel magGE := fun a b => Real.decidableLE _ _

instance : IsTotal SpectralFeature magGE := ⟨fun a b => le_total b.magnitude a.magnitude⟩

instance : IsTrans SpectralFeature magGE := ⟨fun _ _ _ h h' => le_trans h' h⟩

/-- Source `findPeaks` (lines 137-191): scan bins `2 .. spectrum.length - 3`,
collect the features, and sort them by descending magnitude (JS `sort` is
stable; `List.insertionSort` is the same stable sort). -/
def findPeaks (s : AnalysisSettings) (sampleRate : ℝ) (spectrum : List ℝ) :
    List SpectralFeature :=
  let threshold := spectrumMax spectrum * s.harmonicThreshold
  let freqRes := sampleRate / ((spectrum.length : ℝ) * 2)
  ((List.range' 2 (spectrum.length - 4)).filterMap
      (peakFeatureAt s freqRes threshold spectrum)).insertionSort magGE

/-- The best-match search of `detectHarmonics` (lines 208-221): among the
unclaimed features with index `> i`, pick the one minimising the relative
error to `targetFreq`, accepted only below the 2% tolerance.  The carried
`Option (ℕ × ℝ)` is the current `(index, minError)`; `minError = Infinity`
before the first acceptance is modelled by `none`. -/
def bestMatchLoop (features : List SpectralFeature) (processed : List ℕ)
    (i : ℕ) (targetFreq : ℝ) : Option (ℕ × ℝ) :=
  (List.range' (i + 1) (features.length - (i + 1))).foldl
    (fun best j =>
      if j ∈ processed then best
      else
        let e := |(features.getD j default).frequency - targetFreq| / targetFreq
        if e < 0.02 ∧ ∀ p ∈ best, e < p.2 then some (j, e) else best)
    none

/-- The per-candidate harmonic search of `detectHarmonics` (lines 201-227):
starting from the series `[i]` (with `i` claimed), look for harmonics
`2 .. 20` of `features[i].frequency`, claiming each best match.  Returns the
series as a list of feature indices (head = the candidate fundamental)
together with the updated claimed set. -/
def harmonicSearch (features : List SpectralFeature) (i : ℕ)
    (processed : List ℕ) : List ℕ × List ℕ :=
  (List.range' 2 19).foldl
    (fun st (harmonicNum : ℕ) =>
      let targetFreq := (features.getD i default).frequency * (harmonicNum : ℝ)
      match bestMatchLoop features st.2 i targetFreq with
      | some je => (st.1 ++ [je.1], je.1 :: st.2)
      | none => st)
    ([i], i :: processed)

/-- The grouping loop of `detectHarmonics` (lines 194-250) at the level of
feature indices: iterate candidate fundamentals `i < min(|features|, 50)`,
skip claimed ones, and keep only series with at least 3 members. -/
def harmonicGroups (features : List SpectralFeature) : List (List ℕ) :=
  ((List.range (min features.length 50)).foldl
      (fun st i =>
        if i ∈ st.2 then st
        else
          let sp := harmonicSearch features i st.2
          if 3 ≤ sp.1.length then (st.1 ++ [sp.1], sp.2) else (st.1, sp.2))
      ([], [])).1

/-- Build the `HarmonicSeries` record from a series of feature indices
(lines 230-248): `inharmonicity` is the mean over positions `k = 1 ..` of
`|series[k].freq - fund.freq*(k+1)| / (fund.freq*(k+1))`, and `strength`
the sum of all member magnitudes. -/
def mkSeries (features : List SpectralFeature) (g : List ℕ) : HarmonicSeries :=
  let fund := features.getD (g.headD 0) default
  let ser := g.map fun j => features.getD j default
  let inharmonicity :=
    (((List.range (ser.length - 1)).map fun (k : ℕ) =>
        let expected := fund.frequency * ((k : ℝ) + 2)
        |(ser.getD (k + 1) default).frequency - expected| / expected).sum) /
      ((ser.length : ℝ) - 1)
  { fundamental := fund.frequency
    overtones := ser
    strength := (ser.map SpectralFeature.magnitude).sum
    inharmonicity := inharmonicity }

/-- The descending-strength order used by `harmonics.sort((a, b) =>
b.strength - a.strength)` (line 253). -/
def strengthGE (a b : HarmonicSeries) : Prop := b.strength ≤ a.strength

instance : DecidableRel strengthGE := fun a b => Real.decidableLE _ _

instance : IsTotal HarmonicSeries strengthGE := ⟨fun a b => le_total b.strength a.strength⟩

instance : IsTrans HarmonicSeries strengthGE := ⟨fun _ _ _ h h' => le_trans h' h⟩

/-- Source `detectHarmonics` (lines 193-255): group the peaks into harmonic series
and sort the result by descending strength (stable, like JS `sort`). -/
def detectHarmonics (features : List SpectralFeature) : List HarmonicSeries :=
  ((harmonicGroups features).map (mkSeries features)).insertionSort strengthGE

/-- Source `calculateSpectralCentroid` (lines 257-270). -/
def calculateSpectralCentroid (spectrum : List ℝ) (sampleRate : ℝ) : ℝ :=
  let freqRes := sampleRate / ((spectrum.length : ℝ) * 2)
  let weightedSum :=
    ((List.range spectrum.length).map fun (i : ℕ) =>
      (i : ℝ) * freqRes * spectrum.getD i 0).sum
  let magnitudeSum := spectrum.sum
  if magnitudeSum > 0 then weightedSum / magnitudeSum else 0

/-- The early-exit scan of `calculateSpectralRolloff` (lines 277-283): the
first bin at which the cumulative squared magnitude reaches `threshold`. -/
def rolloffLoop (spectrum : List ℝ) (threshold : ℝ) : ℕ → ℝ → Option ℕ
  | i, acc =>
    if h : spectrum.length ≤ i then none
    else
      let acc' := acc + spectrum.getD i 0 * spectrum.getD i 0
      if threshold ≤ acc' then some i else rolloffLoop spectrum threshold (i + 1) acc'
termination_by i => spectrum.length - i
decreasing_by omega

/-- Source `calculateSpectralRolloff` (lines 272-286): 85%-energy rolloff
frequency, defaulting to the top-bin frequency. -/
def calculateSpectralRolloff (spectrum : List ℝ) (sampleRate : ℝ) : ℝ :=
  let freqRes := sampleRate / ((spectrum.length : ℝ) * 2)
  let totalEnergy := (spectrum.map fun m => m * m).sum
  let threshold := totalEnergy * 0.85
  match rolloffLoop spectrum threshold 0 0 with
  | some i => (i : ℝ) * freqRes
  | none => ((spectrum.length : ℝ) - 1) * freqRes

/-- A JS array read at a possibly fractional index, as performed by
`calculateEnvelope`: reading a non-integer or out-of-range index yields
`undefined`, whose absolute value is NaN — modelled by `none`. -/
def readIdx (xs : List ℝ) (q : ℚ) : Option ℝ :=
  if q.den = 1 ∧ 0 ≤ q.num ∧ q.num < (xs.length : ℤ) then
    some (xs.getD q.num.toNat 0)
  else none

/-- Source `calculateEnvelope` (lines 288-308): for each sample index `i`, average
`|audioData[j]|` for `j = max(0, i - w/2), ..., < min(len, i + w/2)` in steps
of 1, where `w = Math.floor(sampleRate * 0.01)`.  When `w` is odd the loop
bounds are half-integers and the reads hit fractional indices (NaN, i.e.
`none`). -/
def calculateEnvelope (sampleRate : ℝ) (xs : List ℝ) : List (Option ℝ) :=
  let w : ℤ := ⌊sampleRate * 0.01⌋
  (List.range xs.length).map fun (i : ℕ) =>
    let start : ℚ := max 0 ((i : ℚ) - (w : ℚ) / 2)
    let stop : ℚ := min (xs.length : ℚ) ((i : ℚ) + (w : ℚ) / 2)
    let count : ℕ := (⌈stop - start⌉).toNat
    let sum : Option ℝ :=
      (List.range count).foldl
        (fun acc (k : ℕ) => acc.bind fun sAcc =>
          (readIdx xs (start + (k : ℚ))).map fun v => sAcc + |v|)
        (some 0)
    if 0 < count then sum.map fun sAcc => sAcc / (count : ℝ) else some 0

/-- One frame of `generateSpectrogram` (lines 318-340): window the
`windowSize`-wide slice starting at `frame * hopSize` (zero-padding past the
end of the signal), FFT it, and convert the half-spectrum to clamped dB:
`max(0, (20*log10(max(mag, 1e-10)) + 100) / 100)`. -/
def spectrogramFrame (s : AnalysisSettings) (audioData : List ℝ)
    (frame : ℕ) : List ℝ :=
  let ws := s.windowSize
  let start := frame * s.hopSize
  let windowedFrame := (List.range ws).map fun (i : ℕ) =>
    if start + i < audioData.length then
      audioData.getD (start + i) 0 * (createWindow ws).getD i 0
    else 0
  let p := fft windowedFrame
  let magnitude := getMagnitudeSpectrum p.1 p.2
  (List.range (ws / 2)).map fun (i : ℕ) =>
    max 0 ((20 * Real.logb 10 (max (magnitude.getD i 0) 1e-10) + 100) / 100)

/-- Source `generateSpectrogram` (lines 310-344): `floor((len - windowSize)/hopSize)
+ 1` hopped frames (none when that quantity is not positive). -/
def generateSpectrogram (s : AnalysisSettings) (audioData : List ℝ) :
    List (List ℝ) :=
  let numFrames : ℤ :=
    ⌊(((audioData.length : ℝ) - (s.windowSize : ℝ)) / (s.hopSize : ℝ))⌋ + 1
  (List.range numFrames.toNat).map (spectrogramFrame s audioData)

/-- The downmix of `analyze` (lines 348-361): single-channel input is used
as-is, otherwise the first two channels are averaged per sample (a
one-channel list in the multi-channel branch would use channel 0 twice). -/
def downmix (channels : List (List ℝ)) : List ℝ :=
  if channels.length = 1 then channels.getD 0 []
  else
    let left := channels.getD 0 []
    let right := if 1 < channels.length then channels.getD 1 [] else left
    (List.range left.length).map fun (i : ℕ) =>
      (left.getD i 0 + right.getD i 0) / 2

/-- The centred analysis frame of `analyze` (lines 374-383): a
`fftSize`-long slice starting at `floor((len - fftSize)/2)`, multiplied by
the Blackman-Harris window built from `settings.windowSize`, with
out-of-signal positions left at 0. -/
def analysisFrame (s : AnalysisSettings) (audioData : List ℝ) : List ℝ :=
  let start : ℤ := ⌊(((audioData.length : ℝ) - (s.fftSize : ℝ)) / 2)⌋
  (List.range s.fftSize).map fun (i : ℕ) =>
    if start + (i : ℤ) < (audioData.length : ℤ) ∧ 0 ≤ start + (i : ℤ) then
      audioData.getD (start + (i : ℤ)).toNat 0 * (createWindow s.windowSize).getD i 0
    else 0

/-- The magnitude spectrum `analyze` computes from its centred frame
(lines 386-387). -/
def analysisMagnitude (s : AnalysisSettings) (audioData : List ℝ) : List ℝ :=
  let p := fft (analysisFrame s audioData)
  getMagnitudeSpectrum p.1 p.2

instance : Inhabited HarmonicSeries := ⟨⟨0, [], 0, 0⟩⟩

/-- The fundamental-frequency selection of `analyze` (lines 399-410): the
strongest harmonic series' fundamental if any series exists; otherwise a
scan over the magnitude-sorted features in reverse that overwrites
`fundamentalFreq` at every feature with `frequency ≥ minFreq` (the loop has
no early exit); otherwise null. -/
def findFundamental (s : AnalysisSettings) (features : List SpectralFeature)
    (harmonics : List HarmonicSeries) : Option ℝ :=
  if harmonics.length > 0 then some ((harmonics.headD default).fundamental)
  else if features.length > 0 then
    features.reverse.foldl
      (fun acc f => if f.frequency ≥ s.minFreq then some f.frequency else acc)
      none
  else none

/-- Source `analyze` (lines 346-432): downmix, RMS/peak scan, centred-frame FFT,
peak detection, harmonic grouping, spectral statistics, fundamental
selection, envelope and spectrogram, assembled into an `AnalysisResult`. -/
def analyze (s : AnalysisSettings) (sampleRate : ℝ)
    (channels : List (List ℝ)) : AnalysisResult :=
  let audioData := downmix channels
  let rmsSum := (audioData.map fun x => |x| * |x|).sum
  let peak := audioData.foldl (fun p x => max p |x|) 0
  let rmsLevel := Real.sqrt (rmsSum / (audioData.length : ℝ))
  let magnitude := analysisMagnitude s audioData
  let spectralFeatures := findPeaks s sampleRate magnitude
  let harmonics := detectHarmonics spectralFeatures
  { spectralFeatures := spectralFeatures
    harmonics := harmonics
    fundamentalFreq := findFundamental s spectralFeatures harmonics
    spectralCentroid := calculateSpectralCentroid magnitude sampleRate
    spectralRolloff := calculateSpectralRolloff magnitude sampleRate
    spectralFlux := 0
    rmsLevel := rmsLevel
    peakLevel := peak
    sampleRate := sampleRate
    duration := (audioData.length : ℝ) / sampleRate
    envelope := calculateEnvelope sampleRate audioData
    spectrogram := generateSpectrogram s audioData }

/-! ### General helper lemmas -/

/-- Reading a mapped range at an in-range index. -/
lemma getD_range_map {β : Type} [Inhabited β] (f : ℕ → β) (N i : ℕ) (d : β)
    (h : i < N) : ((List.range N).map f).getD i d = f i := by
  rw [List.getD_eq_getElem?_getD, List.getElem?_map, List.getElem?_range h]
  rfl

/-- A fold preserves any invariant preserved by its step function. -/
lemma foldl_invariant {α β : Type} (P : β → Prop) (f : β → α → β)
    (l : List α) (init : β) (h0 : P init)
    (hstep : ∀ b a, a ∈ l → P b → P (f b a)) : P (l.foldl f init) := by
  induction l generalizing init with
  | nil => exact h0
  | cons x xs ih =>
    exact ih (f init x) (hstep init x (List.mem_cons_self x xs) h0)
      (fun b a ha hb => hstep b a (List.mem_cons_of_mem x ha) hb)

/-! ### Claim C2 — window generator -/

/-- Claim C2 counterexample: for `N = 1 < 2` the source does NOT fail with an
`InvalidParameter` error; `createWindow` performs no validation and returns a
coefficient array of length 1 (its single coefficient is computed with a
division by zero, NaN in JS). -/
theorem claim_C2_counterexample : (createWindow 1).length = 1 := by
  simp only [createWindow, List.length_map, List.length_range]

/-- Claim C2 (amended): for every `N` the window generator returns an array
of length `N` without any validation; for `N ≥ 2` coefficient `i` equals
`0.35875 - 0.48829 cos(2πi/(N-1)) + 0.14128 cos(4πi/(N-1))
- 0.01168 cos(6πi/(N-1))`. -/
theorem claim_C2_window_formula (N : ℕ) :
    (createWindow N).length = N ∧
    ∀ i : ℕ, 2 ≤ N → i < N →
      (createWindow N).getD i 0 =
        0.35875
          - 0.48829 * Real.cos (2 * Real.pi * i / ((N : ℝ) - 1))
          + 0.14128 * Real.cos (4 * Real.pi * i / ((N : ℝ) - 1))
          - 0.01168 * Real.cos (6 * Real.pi * i / ((N : ℝ) - 1)) := by
  constructor
  · simp only [createWindow, List.length_map, List.length_range]
  · intro i _ hi
    simp only [createWindow]
    exact getD_range_map _ N i 0 hi

/-- Witness for claim C2's theorem at `N = 4`, `i = 1`. -/
theorem claim_C2_window_formula_witness :
    (createWindow 4).length = 4 ∧
    (createWindow 4).getD 1 0 =
      0.35875
        - 0.48829 * Real.cos (2 * Real.pi * 1 / ((4 : ℝ) - 1))
        + 0.14128 * Real.cos (4 * Real.pi * 1 / ((4 : ℝ) - 1))
        - 0.01168 * Real.cos (6 * Real.pi * 1 / ((4 : ℝ) - 1)) := by
  refine ⟨(claim_C2_window_formula 4).1, ?_⟩
  have h := (claim_C2_window_formula 4).2 1 (by norm_num) (by norm_num)
  simpa using h

/-! ### Claim C6 — spectrogram shape -/

/-- Claim C6: with `windowSize ≤ sampleCount` and a positive hop, the
spectrogram has exactly `floor((sampleCount - windowSize)/hopSize) + 1`
frames, each of `windowSize/2` entries. -/
theorem claim_C6_spectrogram_shape (s : AnalysisSettings) (audio : List ℝ)
    (hws : s.windowSize ≤ audio.length) (hhop : 0 < s.hopSize) :
    (generateSpectrogram s audio).length =
      (audio.length - s.windowSize) / s.hopSize + 1 ∧
    ∀ fr ∈ generateSpectrogram s audio, fr.length = s.windowSize / 2 := by
  constructor
  · have hcast : ((audio.length : ℝ) - (s.windowSize : ℝ)) =
        (((audio.length - s.windowSize : ℕ) : ℝ)) := by
      push_cast [hws]; ring
    have hfl : (⌊(((audio.length : ℝ) - (s.windowSize : ℝ)) / (s.hopSize : ℝ))⌋ : ℤ) =
        (((audio.length - s.windowSize) / s.hopSize : ℕ) : ℤ) := by
      rw [hcast]
      rw [Int.floor_eq_iff]
      constructor
      · rw [le_div_iff (by exact_mod_cast hhop)]
        have : (audio.length - s.windowSize) / s.hopSize * s.hopSize ≤
            audio.length - s.windowSize := Nat.div_mul_le_self _ _
        push_cast
        exact_mod_cast this
      · rw [div_lt_iff (by exact_mod_cast hhop)]
        have : audio.length - s.windowSize <
            ((audio.length - s.windowSize) / s.hopSize + 1) * s.hopSize := by
          have h2 := @Nat.lt_div_mul_add (audio.length - s.windowSize) s.hopSize hhop
          calc audio.length - s.windowSize
              < (audio.length - s.windowSize) / s.hopSize * s.hopSize + s.hopSize := h2
            _ = ((audio.length - s.windowSize) / s.hopSize + 1) * s.hopSize := by ring
        push_cast
        exact_mod_cast this
    simp only [generateSpectrogram, List.length_map, List.length_range]
    rw [hfl]
    have hd : (0 : ℤ) ≤ (((audio.length - s.windowSize) / s.hopSize : ℕ) : ℤ) :=
      Int.natCast_nonneg _
    omega
  · intro fr hfr
    simp only [generateSpectrogram, List.mem_map] at hfr
    obtain ⟨frame, _, rfl⟩ := hfr
    simp [spectrogramFrame]

/-- Witness for claim C6's theorem: `windowSize 4`, `hopSize 2`, six input
samples give `(6-4)/2 + 1 = 2` frames of `4/2 = 2` entries. -/
theorem claim_C6_spectrogram_shape_witness :
    (generateSpectrogram ⟨4, 4, 2, 1, 10, 1/10, 0⟩ [0, 0, 0, 0, 0, 0]).length = 2 ∧
    ∀ fr ∈ generateSpectrogram ⟨4, 4, 2, 1, 10, 1/10, 0⟩ [0, 0, 0, 0, 0, 0],
      fr.length = 2 := by
  have h := claim_C6_spectrogram_shape ⟨4, 4, 2, 1, 10, 1/10, 0⟩
    [0, 0, 0, 0, 0, 0] (by norm_num) (by norm_num)
  simpa using h

/-! ### Claim C5 — spectrogram value range -/

/-- Claim C5 (amended): every spectrogram value is non-negative — the source
clamps `(20*log10(max(mag,1e-10)) + 100)/100` below at 0 but has no upper
clamp, so values are in `[0, ∞)`, not `[0, 1]`. -/
theorem claim_C5_spectrogram_nonneg (s : AnalysisSettings) (audio : List ℝ)
    (i j : ℕ) : 0 ≤ ((generateSpectrogram s audio).getD i []).getD j 0 := by
  simp only [generateSpectrogram]
  set n := (⌊((audio.length : ℝ) - (s.windowSize : ℝ)) / (s.hopSize : ℝ)⌋ + 1).toNat
  rcases lt_or_le i n with hi | hi
  · rw [getD_range_map _ _ _ _ hi]
    rcases lt_or_le j (s.windowSize / 2) with hj | hj
    · simp only [spectrogramFrame]
      rw [getD_range_map _ _ _ _ hj]
      exact le_max_left 0 _
    · rw [List.getD_eq_default]
      simp only [spectrogramFrame, List.length_map, List.length_range]
      exact hj
  · have houter : (List.map (spectrogramFrame s audio) (List.range n)).getD i [] =
        [] := List.getD_eq_default _ _ (by simpa using hi)
    rw [houter]
    simp

lemma cos_two_pi_thirds : Real.cos (2 * Real.pi / 3) = -(1 / 2) := by
  rw [show 2 * Real.pi / 3 = Real.pi - Real.pi / 3 by ring, Real.cos_pi_sub,
    Real.cos_pi_div_three]

lemma cos_four_pi_thirds : Real.cos (4 * Real.pi / 3) = -(1 / 2) := by
  rw [show 4 * Real.pi / 3 = Real.pi / 3 + Real.pi by ring, Real.cos_add_pi,
    Real.cos_pi_div_three]

lemma cos_eight_pi_thirds : Real.cos (8 * Real.pi / 3) = -(1 / 2) := by
  rw [show 8 * Real.pi / 3 = 2 * Real.pi / 3 + 2 * Real.pi by ring,
    Real.cos_add_two_pi, cos_two_pi_thirds]

lemma cos_four_pi : Real.cos (4 * Real.pi) = 1 := by
  rw [show (4 : ℝ) * Real.pi = ((2 : ℕ) : ℝ) * (2 * Real.pi) by push_cast; ring,
    Real.cos_nat_mul_two_pi]

lemma cos_six_pi : Real.cos (6 * Real.pi) = 1 := by
  rw [show (6 : ℝ) * Real.pi = ((3 : ℕ) : ℝ) * (2 * Real.pi) by push_cast; ring,
    Real.cos_nat_mul_two_pi]

/-- The Blackman-Harris window of length 4, evaluated exactly. -/
lemma createWindow_four :
    createWindow 4 = [0.00006, 0.520575, 0.520575, 0.00006] := by
  have hr : List.range 4 = [0, 1, 2, 3] := by decide
  simp only [createWindow, hr, List.map_cons, List.map_nil]
  norm_num [cos_two_pi_thirds, cos_four_pi_thirds, cos_eight_pi_thirds,
    cos_four_pi, cos_six_pi, Real.cos_two_pi,
    show Real.cos (6 * Real.pi / 3) = 1 from by
      rw [show (6 : ℝ) * Real.pi / 3 = 2 * Real.pi by ring]
      exact Real.cos_two_pi,
    show Real.cos (2 * Real.pi * 2 / 3) = -(1 / 2) from by
      rw [show (2 : ℝ) * Real.pi * 2 / 3 = 4 * Real.pi / 3 by ring]
      exact cos_four_pi_thirds,
    show Real.cos (4 * Real.pi * 2 / 3) = -(1 / 2) from by
      rw [show (4 : ℝ) * Real.pi * 2 / 3 = 8 * Real.pi / 3 by ring]
      exact cos_eight_pi_thirds,
    show Real.cos (6 * Real.pi * 2 / 3) = 1 from by
      rw [show (6 : ℝ) * Real.pi * 2 / 3 = 4 * Real.pi by ring]
      exact cos_four_pi,
    show Real.cos (2 * Real.pi * 3 / 3) = 1 from by
      rw [show (2 : ℝ) * Real.pi * 3 / 3 = 2 * Real.pi by ring]
      exact Real.cos_two_pi,
    show Real.cos (4 * Real.pi * 3 / 3) = 1 from by
      rw [show (4 : ℝ) * Real.pi * 3 / 3 = 4 * Real.pi by ring]
      exact cos_four_pi,
    show Real.cos (6 * Real.pi * 3 / 3) = 1 from by
      rw [show (6 : ℝ) * Real.pi * 3 / 3 = 6 * Real.pi by ring]
      exact cos_six_pi]

/-- The radix-2 FFT of a 4-sample frame, evaluated symbolically (the
twiddle factors of sizes 2 and 4 are `cos/sin` of `0` and `π/2`). -/
lemma fft_four (a b c d : ℝ) :
    fft [a, b, c, d] =
      ([a + c + (b + d), a - c, a + c - (b + d), a - c],
       [0, b - d, 0, 0 - (b - d)]) := by
  have hrev1 : revInc 0 2 = 2 := by rw [revInc]; norm_num
  have hrev2 : revInc 2 2 = 1 := by rw [revInc]; norm_num; rw [revInc]; norm_num
  have hrev3 : revInc 1 2 = 3 := by rw [revInc]; norm_num; decide
  have hlog : Nat.log2 4 = 2 := by
    rw [Nat.log2]; norm_num
    rw [Nat.log2]; norm_num
    rw [Nat.log2]; norm_num
  have hcos0 : Real.cos (2 * Real.pi / ((2 : ℕ) : ℝ) * ((0 : ℕ) : ℝ)) = 1 := by
    norm_num
  have hsin0 : Real.sin (2 * Real.pi / ((2 : ℕ) : ℝ) * ((0 : ℕ) : ℝ)) = 0 := by
    norm_num
  have harg : 2 * Real.pi / ((4 : ℕ) : ℝ) * ((1 : ℕ) : ℝ) = Real.pi / 2 := by
    push_cast; ring
  have hcos40 : Real.cos (2 * Real.pi / ((4 : ℕ) : ℝ) * ((0 : ℕ) : ℝ)) = 1 := by
    norm_num
  have hsin40 : Real.sin (2 * Real.pi / ((4 : ℕ) : ℝ) * ((0 : ℕ) : ℝ)) = 0 := by
    norm_num
  have hcos41 : Real.cos (2 * Real.pi / ((4 : ℕ) : ℝ) * ((1 : ℕ) : ℝ)) = 0 := by
    rw [harg, Real.cos_pi_div_two]
  have hsin41 : Real.sin (2 * Real.pi / ((4 : ℕ) : ℝ) * ((1 : ℕ) : ℝ)) = 1 := by
    rw [harg, Real.sin_pi_div_two]
  simp only [fft, List.length_cons, List.length_nil, hlog]
  norm_num [bitRev, List.range', List.foldl, hrev1, hrev2, hrev3, swapAt2,
    List.getD, butterflyStage, butterflyInner, List.range, List.range.loop,
    hcos0, hsin0, hcos40, hsin40, hcos41, hsin41, List.set]
  ring_nf
  simp only [show Real.pi * (1 / 2) = Real.pi / 2 from by ring,
    Real.cos_pi_div_two, Real.sin_pi_div_two]
  norm_num [List.set, List.getD]

/-- The first magnitude bin of a 4-point FFT result with zero first and
third imaginary entries. -/
lemma mag_getD_zero (A B C D E F : ℝ) (hA : 0 ≤ A) :
    (getMagnitudeSpectrum [A, B, C, D] [0, E, 0, F]).getD 0 0 = A := by
  simp only [getMagnitudeSpectrum]
  rw [getD_range_map _ _ _ _ (by norm_num)]
  show Real.sqrt (A * A + 0 * 0) = A
  rw [show A * A + 0 * 0 = A ^ 2 by ring]
  exact Real.sqrt_sq hA

/-- Helper: a map over `List.range 4` written out. -/
lemma range_four_map {β : Type} (g : ℕ → β) :
    (List.range 4).map g = [g 0, g 1, g 2, g 3] := by
  have h : List.range 4 = [0, 1, 2, 3] := by decide
  rw [h]
  rfl

/-- Variant of `mag_getD_zero` phrased on the pair form produced by
`fft_four` and the `getElem?` normal form. -/
lemma mag_pair_elem (A B C D E F : ℝ) (hA : 0 ≤ A) :
    (getMagnitudeSpectrum ([A, B, C, D], ([0, E, 0, F] : List ℝ)).1
        ([A, B, C, D], ([0, E, 0, F] : List ℝ)).2)[0]?.getD 0 = A := by
  show (getMagnitudeSpectrum [A, B, C, D] [0, E, 0, F])[0]?.getD 0 = A
  have h := mag_getD_zero A B C D E F hA
  rwa [List.getD_eq_getElem?_getD] at h

/-- A magnitude above 1 yields a "normalized" dB value above 1. -/
lemma one_lt_db (x : ℝ) (hx : 1 < x) :
    1 < (20 * Real.logb 10 x + 100) / 100 := by
  have hl : 0 < Real.logb 10 x := Real.logb_pos (by norm_num) hx
  rw [lt_div_iff (by norm_num : (0 : ℝ) < 100)]
  linarith

/-- Claim C5 counterexample: for the all-ones 4-sample input with
`windowSize = hopSize = 4`, the first spectrogram value exceeds 1 (the DC
magnitude of the windowed frame is `1.04127 > 1`, so its dB value is
positive and the "normalized" value `(dB + 100)/100` is above 1). -/
theorem claim_C5_counterexample :
    1 < ((generateSpectrogram ⟨4, 4, 4, 20, 20000, 1/10, 0⟩
        [1, 1, 1, 1]).getD 0 []).getD 0 0 := by
  have hgs : generateSpectrogram ⟨4, 4, 4, 20, 20000, 1/10, 0⟩ [1, 1, 1, 1] =
      [spectrogramFrame ⟨4, 4, 4, 20, 20000, 1/10, 0⟩ [1, 1, 1, 1] 0] := by
    simp only [generateSpectrogram, List.length_cons, List.length_nil]
    norm_num
    rw [show List.range 1 = [0] from by decide, List.map_cons, List.map_nil]
  rw [hgs, List.getD_cons_zero]
  simp only [spectrogramFrame]
  rw [getD_range_map _ (4 / 2) 0 (0 : ℝ) (by norm_num)]
  rw [range_four_map]
  norm_num [createWindow_four, List.getD]
  rw [fft_four]
  rw [mag_pair_elem _ _ _ _ _ _ (by norm_num)]
  refine one_lt_db _ (lt_max_iff.mpr (Or.inl ?_))
  norm_num

/-! ### All-zero signals through the pipeline (claims C3 and C7) -/

/-- Every entry of the list is zero. -/
def AllZero (xs : List ℝ) : Prop := ∀ x ∈ xs, x = 0

lemma allZero_getD {xs : List ℝ} (h : AllZero xs) (i : ℕ) : xs.getD i 0 = 0 := by
  rcases lt_or_le i xs.length with hi | hi
  · rw [List.getD_eq_getElem _ _ hi]
    exact h _ (List.getElem_mem hi)
  · exact List.getD_eq_default _ _ hi

lemma allZero_set {xs : List ℝ} (h : AllZero xs) (i : ℕ) :
    AllZero (xs.set i 0) := by
  intro x hx
  rcases List.mem_or_eq_of_mem_set hx with h' | h'
  · exact h x h'
  · exact h'

lemma allZero_swapAt2 {xs : List ℝ} (h : AllZero xs) (a b : ℕ) :
    AllZero (swapAt2 xs a b) := by
  rw [swapAt2, allZero_getD h, allZero_getD h]
  exact allZero_set (allZero_set h a) b

lemma allZero_replicate (n : ℕ) : AllZero (List.replicate n 0) :=
  fun _ hx => List.eq_of_mem_replicate hx

lemma allZero_bitRev (N : ℕ) {re im : List ℝ} (hre : AllZero re)
    (him : AllZero im) : AllZero (bitRev N re im).1 ∧ AllZero (bitRev N re im).2 := by
  simp only [bitRev]
  exact foldl_invariant
    (fun st : ℕ × List ℝ × List ℝ => AllZero st.2.1 ∧ AllZero st.2.2) _
    (List.range' 1 (N - 1)) (0, re, im) ⟨hre, him⟩
    (fun st i _ hst => by
      dsimp only
      split_ifs
      · exact ⟨allZero_swapAt2 hst.1 _ _, allZero_swapAt2 hst.2 _ _⟩
      · exact hst)

lemma allZero_butterflyInner (len base j : ℕ) {st : List ℝ × List ℝ}
    (h : AllZero st.1 ∧ AllZero st.2) :
    AllZero (butterflyInner len base st j).1 ∧
      AllZero (butterflyInner len base st j).2 := by
  obtain ⟨h1, h2⟩ := h
  simp only [butterflyInner, allZero_getD h1, allZero_getD h2, mul_zero,
    sub_zero, add_zero, zero_add, zero_sub, neg_zero, sub_self]
  exact ⟨allZero_set (allZero_set h1 _) _, allZero_set (allZero_set h2 _) _⟩

lemma allZero_butterflyStage (N len : ℕ) {st : List ℝ × List ℝ}
    (h : AllZero st.1 ∧ AllZero st.2) :
    AllZero (butterflyStage N len st).1 ∧ AllZero (butterflyStage N len st).2 := by
  simp only [butterflyStage]
  refine foldl_invariant
    (fun st : List ℝ × List ℝ => AllZero st.1 ∧ AllZero st.2) _ _ st h ?_
  intro b a _ hb
  exact foldl_invariant
    (fun st : List ℝ × List ℝ => AllZero st.1 ∧ AllZero st.2) _ _ b hb
    (fun b' a' _ hb' => allZero_butterflyInner _ _ _ hb')

lemma allZero_fft {signal : List ℝ} (h : AllZero signal) :
    AllZero (fft signal).1 ∧ AllZero (fft signal).2 := by
  simp only [fft]
  exact foldl_invariant
    (fun st : List ℝ × List ℝ => AllZero st.1 ∧ AllZero st.2) _ _ _
    (allZero_bitRev _ h (allZero_replicate _))
    (fun b a _ hb => allZero_butterflyStage _ _ hb)

lemma allZero_magnitude {re im : List ℝ} (h1 : AllZero re) (h2 : AllZero im) :
    AllZero (getMagnitudeSpectrum re im) := by
  intro x hx
  simp only [getMagnitudeSpectrum, List.mem_map] at hx
  obtain ⟨i, _, rfl⟩ := hx
  rw [allZero_getD h1, allZero_getD h2]
  simp

lemma allZero_spectrumMax {l : List ℝ} (h : AllZero l) : spectrumMax l = 0 := by
  have hseed : l.headD 0 = 0 := by
    cases l with
    | nil => rfl
    | cons x t => exact h x (List.mem_cons_self x t)
  rw [spectrumMax, hseed]
  exact foldl_invariant (fun acc => acc = 0) max l 0 rfl
    (fun b a ha hb => by rw [hb, h a ha]; exact max_self 0)

/-- On an all-zero spectrum the peak detector finds nothing: the threshold is
`0` and no bin magnitude strictly exceeds it. -/
lemma findPeaks_allZero (s : AnalysisSettings) (sr : ℝ) {spectrum : List ℝ}
    (h : AllZero spectrum) : findPeaks s sr spectrum = [] := by
  simp only [findPeaks]
  have hfm : (List.range' 2 (spectrum.length - 4)).filterMap
      (peakFeatureAt s (sr / ((spectrum.length : ℝ) * 2))
        (spectrumMax spectrum * s.harmonicThreshold) spectrum) = [] := by
    rw [List.filterMap_eq_nil]
    intro i _
    simp only [peakFeatureAt]
    rw [if_neg]
    intro hc
    have h1 := hc.1
    rw [allZero_getD h, allZero_spectrumMax h, zero_mul] at h1
    exact lt_irrefl 0 h1
  rw [hfm]
  rfl

lemma detectHarmonics_nil : detectHarmonics [] = [] := rfl

lemma downmix_single (xs : List ℝ) : downmix [xs] = xs := by
  simp [downmix]

lemma allZero_analysisFrame (s : AnalysisSettings) {audio : List ℝ}
    (h : AllZero audio) : AllZero (analysisFrame s audio) := by
  intro x hx
  simp only [analysisFrame, List.mem_map] at hx
  obtain ⟨i, _, rfl⟩ := hx
  split_ifs
  · rw [allZero_getD h, zero_mul]
  · rfl

lemma allZero_analysisMagnitude (s : AnalysisSettings) {audio : List ℝ}
    (h : AllZero audio) : AllZero (analysisMagnitude s audio) := by
  simp only [analysisMagnitude]
  have hf := allZero_fft (allZero_analysisFrame s h)
  exact allZero_magnitude hf.1 hf.2

lemma sum_absSq_zero {xs : List ℝ} (h : AllZero xs) :
    (xs.map fun x => |x| * |x|).sum = 0 := by
  apply List.sum_eq_zero
  intro x hx
  simp only [List.mem_map] at hx
  obtain ⟨y, hy, rfl⟩ := hx
  rw [h y hy]
  simp

lemma peak_fold_zero {xs : List ℝ} (h : AllZero xs) :
    xs.foldl (fun p x => max p |x|) 0 = 0 :=
  foldl_invariant (fun acc => acc = 0) _ xs 0 rfl
    (fun b a ha hb => by rw [hb, h a ha]; simp)

/-! ### Claim C7 — silence input -/

/-- Claim C7: an all-zeros input yields empty `spectralFeatures`, empty
`harmonics`, `fundamentalFreq = null`, `rmsLevel = 0` and `peakLevel = 0`. -/
theorem claim_C7_silence (s : AnalysisSettings) (sr : ℝ) (n : ℕ) (hn : 0 < n) :
    (analyze s sr [List.replicate n 0]).spectralFeatures = [] ∧
    (analyze s sr [List.replicate n 0]).harmonics = [] ∧
    (analyze s sr [List.replicate n 0]).fundamentalFreq = none ∧
    (analyze s sr [List.replicate n 0]).rmsLevel = 0 ∧
    (analyze s sr [List.replicate n 0]).peakLevel = 0 := by
  have hz : AllZero (List.replicate n (0 : ℝ)) := allZero_replicate n
  have hdm : downmix [List.replicate n (0 : ℝ)] = List.replicate n 0 :=
    downmix_single _
  have hfp : findPeaks s sr (analysisMagnitude s (List.replicate n 0)) = [] :=
    findPeaks_allZero s sr (allZero_analysisMagnitude s hz)
  simp only [analyze, hdm, hfp, detectHarmonics_nil]
  refine ⟨trivial, trivial, ?_, ?_, peak_fold_zero hz⟩
  · simp [findFundamental]
  · rw [sum_absSq_zero hz]
    simp

/-- Witness for claim C7's theorem at one concrete input. -/
theorem claim_C7_silence_witness :
    (analyze ⟨4, 4, 2, 1, 10, 1/10, 0⟩ 8 [List.replicate 1 0]).spectralFeatures = [] ∧
    (analyze ⟨4, 4, 2, 1, 10, 1/10, 0⟩ 8 [List.replicate 1 0]).harmonics = [] ∧
    (analyze ⟨4, 4, 2, 1, 10, 1/10, 0⟩ 8 [List.replicate 1 0]).fundamentalFreq = none ∧
    (analyze ⟨4, 4, 2, 1, 10, 1/10, 0⟩ 8 [List.replicate 1 0]).rmsLevel = 0 ∧
    (analyze ⟨4, 4, 2, 1, 10, 1/10, 0⟩ 8 [List.replicate 1 0]).peakLevel = 0 :=
  claim_C7_silence ⟨4, 4, 2, 1, 10, 1/10, 0⟩ 8 1 (by norm_num)

/-! ### Claim C3 — zero-length input -/

lemma allZero_nil : AllZero ([] : List ℝ) := fun _ hx => absurd hx (List.not_mem_nil _)

lemma calculateEnvelope_nil (sr : ℝ) : calculateEnvelope sr [] = [] := by
  simp [calculateEnvelope]

/-- The spectrogram of a zero-length signal is empty (for positive window
and hop sizes the frame-count formula is negative, so no frames are built). -/
lemma generateSpectrogram_nil (s : AnalysisSettings) (hws : 0 < s.windowSize)
    (hhop : 0 < s.hopSize) : generateSpectrogram s [] = [] := by
  simp only [generateSpectrogram, List.length_nil]
  have hneg : (⌊(((0 : ℕ) : ℝ) - (s.windowSize : ℝ)) / (s.hopSize : ℝ)⌋ : ℤ) < 0 := by
    rw [Int.floor_lt]
    push_cast
    apply div_neg_of_neg_of_pos
    · simpa using hws
    · exact_mod_cast hhop
  have hz : ((⌊(((0 : ℕ) : ℝ) - (s.windowSize : ℝ)) / (s.hopSize : ℝ)⌋ : ℤ) + 1).toNat = 0 := by
    omega
  rw [hz]
  rfl

/-- Claim C3 (amended): `analyze` raises no error on a zero-length buffer —
it returns an `AnalysisResult` with empty `spectralFeatures` and `harmonics`,
`fundamentalFreq = null`, an empty envelope and (for positive window/hop
sizes) an empty spectrogram.  (In JS its `rmsLevel` is NaN, from
`sqrt(0/0)`.) -/
theorem claim_C3_empty_input (s : AnalysisSettings) (sr : ℝ) :
    (analyze s sr [[]]).spectralFeatures = [] ∧
    (analyze s sr [[]]).harmonics = [] ∧
    (analyze s sr [[]]).fundamentalFreq = none ∧
    (analyze s sr [[]]).envelope = [] ∧
    (0 < s.windowSize → 0 < s.hopSize → (analyze s sr [[]]).spectrogram = []) := by
  have hdm : downmix [([] : List ℝ)] = [] := downmix_single _
  have hfp : findPeaks s sr (analysisMagnitude s []) = [] :=
    findPeaks_allZero s sr (allZero_analysisMagnitude s allZero_nil)
  simp only [analyze, hdm, hfp, detectHarmonics_nil, calculateEnvelope_nil]
  refine ⟨trivial, trivial, ?_, trivial, ?_⟩
  · simp [findFundamental]
  · intro hws hhop
    exact generateSpectrogram_nil s hws hhop

/-- Witness for claim C3's theorem at concrete settings. -/
theorem claim_C3_empty_input_witness :
    (analyze ⟨4, 4, 2, 1, 10, 1/10, 0⟩ 8 [[]]).spectralFeatures = [] ∧
    (analyze ⟨4, 4, 2, 1, 10, 1/10, 0⟩ 8 [[]]).harmonics = [] ∧
    (analyze ⟨4, 4, 2, 1, 10, 1/10, 0⟩ 8 [[]]).fundamentalFreq = none ∧
    (analyze ⟨4, 4, 2, 1, 10, 1/10, 0⟩ 8 [[]]).envelope = [] ∧
    (analyze ⟨4, 4, 2, 1, 10, 1/10, 0⟩ 8 [[]]).spectrogram = [] := by
  have h := claim_C3_empty_input ⟨4, 4, 2, 1, 10, 1/10, 0⟩ 8
  exact ⟨h.1, h.2.1, h.2.2.1, h.2.2.2.1, h.2.2.2.2 (by norm_num) (by norm_num)⟩

/-- Claim C3 counterexample: on the zero-length buffer, `analyze` does not
surface an `EmptyInput` error — the source has no `throw` at all and an
`AnalysisResult` is produced (here shown with its empty `spectralFeatures`,
null `fundamentalFreq` and empty spectrogram at concrete settings). -/
theorem claim_C3_counterexample :
    (analyze ⟨4, 4, 2, 1, 10, 1/10, 0⟩ 8 [[]]).spectralFeatures = [] ∧
    (analyze ⟨4, 4, 2, 1, 10, 1/10, 0⟩ 8 [[]]).fundamentalFreq = none := by
  have hdm : downmix [([] : List ℝ)] = [] := downmix_single _
  have hfp : findPeaks (⟨4, 4, 2, 1, 10, 1/10, 0⟩ : AnalysisSettings) 8
      (analysisMagnitude ⟨4, 4, 2, 1, 10, 1/10, 0⟩ []) = [] :=
    findPeaks_allZero _ 8 (allZero_analysisMagnitude _ allZero_nil)
  simp only [analyze, hdm, hfp, detectHarmonics_nil]
  exact ⟨trivial, by simp [findFundamental]⟩

/-! ### Claim C4 — bandwidth estimation -/

/-- If no bin in `[j0, 20)` triggers the −3 dB test, the bandwidth loop
returns the default of one bin width. -/
lemma bandwidthLoop_of_none (spectrum : List ℝ) (i : ℕ) (m freqRes : ℝ) :
    ∀ j0 : ℕ,
      (∀ k, j0 ≤ k → k < 20 → ¬(k ≤ i ∧ spectrum.getD (i - k) 0 < m * 0.707)) →
      bandwidthLoop spectrum i m freqRes j0 = freqRes := by
  have H : ∀ fuel j0, 20 - j0 ≤ fuel →
      (∀ k, j0 ≤ k → k < 20 → ¬(k ≤ i ∧ spectrum.getD (i - k) 0 < m * 0.707)) →
      bandwidthLoop spectrum i m freqRes j0 = freqRes := by
    intro fuel
    induction fuel with
    | zero =>
      intro j0 hle _
      rw [bandwidthLoop, dif_pos (by omega)]
    | succ f ih =>
      intro j0 hle hnone
      rw [bandwidthLoop]
      by_cases h20 : 20 ≤ j0
      · rw [dif_pos h20]
      · rw [dif_neg h20, if_neg (hnone j0 (le_refl _) (by omega))]
        exact ih (j0 + 1) (by omega) (fun k hk hk20 => hnone k (by omega) hk20)
  exact fun j0 h => H 20 j0 (by omega) h

/-- If `j` is the first bin distance in `[j0, 20)` at which the −3 dB test
fires, the bandwidth loop returns `j` bin widths. -/
lemma bandwidthLoop_of_first (spectrum : List ℝ) (i : ℕ) (m freqRes : ℝ) :
    ∀ j0 j : ℕ, j0 ≤ j → j < 20 →
      (j ≤ i ∧ spectrum.getD (i - j) 0 < m * 0.707) →
      (∀ k, j0 ≤ k → k < j → ¬(k ≤ i ∧ spectrum.getD (i - k) 0 < m * 0.707)) →
      bandwidthLoop spectrum i m freqRes j0 = (j : ℝ) * freqRes := by
  have H : ∀ fuel j0 j, 20 - j0 ≤ fuel → j0 ≤ j → j < 20 →
      (j ≤ i ∧ spectrum.getD (i - j) 0 < m * 0.707) →
      (∀ k, j0 ≤ k → k < j → ¬(k ≤ i ∧ spectrum.getD (i - k) 0 < m * 0.707)) →
      bandwidthLoop spectrum i m freqRes j0 = (j : ℝ) * freqRes := by
    intro fuel
    induction fuel with
    | zero =>
      intro j0 j hle hj0 hj20 _ _
      omega
    | succ f ih =>
      intro j0 j hle hj0 hj20 hcond hmin
      rw [bandwidthLoop, dif_neg (by omega)]
      by_cases hj : j0 = j
      · subst hj
        rw [if_pos hcond]
      · rw [if_neg (hmin j0 (le_refl _) (by omega))]
        exact ih (j0 + 1) j (by omega) (by omega) hj20 hcond
          (fun k hk hkj => hmin k (by omega) hkj)
  exact fun j0 j h1 h2 h3 h4 => H 20 j0 j (by omega) h1 h2 h3 h4

/-- Claim C4 (amended): the bandwidth reported for a detected peak at bin
`i` with magnitude `m` is `j * freqResolution` where `j` is the smallest
distance in `1 .. 19`, walking only toward LOWER bins (`spectrum[i-j]`,
skipped while `i - j < 0`), at which the magnitude drops below `0.707 * m`;
one bin width if no such distance exists.  The upper side of the peak is
never examined. -/
theorem claim_C4_bandwidth (spectrum : List ℝ) (i : ℕ) (m freqRes : ℝ) :
    (∀ (s : AnalysisSettings) (th : ℝ) (f : SpectralFeature),
      peakFeatureAt s freqRes th spectrum i = some f →
      f.bandwidth = estimateBandwidth spectrum i (spectrum.getD i 0) freqRes) ∧
    (∀ j : ℕ, 1 ≤ j → j < 20 → j ≤ i → spectrum.getD (i - j) 0 < m * 0.707 →
      (∀ k, 1 ≤ k → k < j → ¬(k ≤ i ∧ spectrum.getD (i - k) 0 < m * 0.707)) →
      estimateBandwidth spectrum i m freqRes = (j : ℝ) * freqRes) ∧
    ((∀ j : ℕ, 1 ≤ j → j < 20 → ¬(j ≤ i ∧ spectrum.getD (i - j) 0 < m * 0.707)) →
      estimateBandwidth spectrum i m freqRes = freqRes) := by
  refine ⟨?_, ?_, ?_⟩
  · intro s th f hf
    simp only [peakFeatureAt] at hf
    split_ifs at hf
    all_goals simp only [Option.some.injEq] at hf
    all_goals subst hf
    all_goals rfl
  · intro j h1 h2 h3 h4 hmin
    exact bandwidthLoop_of_first spectrum i m freqRes 1 j h1 h2 ⟨h3, h4⟩ hmin
  · intro hnone
    exact bandwidthLoop_of_none spectrum i m freqRes 1
      (fun k hk hk20 => hnone k hk hk20)

/-- Witness for claim C4's theorem: in the spectrum
`[0.8, 0.9, 1, 0.95, 0.5, 0, 0, 0]` the peak at bin 2 (magnitude 1) never
drops below `0.707` on its lower side, so the bandwidth defaults to one bin
width. -/
theorem claim_C4_bandwidth_witness :
    estimateBandwidth [0.8, 0.9, 1, 0.95, 0.5, 0, 0, 0] 2 1 1 = 1 := by
  refine (claim_C4_bandwidth [0.8, 0.9, 1, 0.95, 0.5, 0, 0, 0] 2 1 1).2.2 ?_
  rintro j h1 h2 ⟨hji, hdrop⟩
  have hj : j = 1 ∨ j = 2 := by omega
  rcases hj with rfl | rfl <;> norm_num [List.getD] at hdrop

/-- Modelled from the claim's wording (the spec sentence "walking outward
from the peak (up to 20 bins) until magnitude drops below 0.707×peak
magnitude"): the smallest distance `j ∈ 1..20` at which the magnitude at
bin `i - j` (when it exists) or bin `i + j` (when it exists) drops below
`0.707 * m`, defaulting to one bin width. -/
def claimBandwidthLoop (spectrum : List ℝ) (i : ℕ) (m freqRes : ℝ) (j : ℕ) : ℝ :=
  if h : 20 < j then freqRes
  else if (j ≤ i ∧ spectrum.getD (i - j) 0 < m * 0.707) ∨
      (i + j < spectrum.length ∧ spectrum.getD (i + j) 0 < m * 0.707) then
    (j : ℝ) * freqRes
  else claimBandwidthLoop spectrum i m freqRes (j + 1)
termination_by 21 - j
decreasing_by omega

/-- Modelled from the claim's wording; see `claimBandwidthLoop`. -/
def claimBandwidth (spectrum : List ℝ) (i : ℕ) (m freqRes : ℝ) : ℝ :=
  claimBandwidthLoop spectrum i m freqRes 1

/-- Claim C4 counterexample: in `[0.8, 0.9, 1, 0.95, 0.5, 0, 0, 0]`
(sample rate 16, so one bin width = 1) the only detected peak is at bin 2,
and the source reports bandwidth 1 (the default — the lower side never drops
below 0.707), while the claim's outward walk finds the drop at distance 2
(bin 4, magnitude 0.5) and demands bandwidth 2. -/
theorem claim_C4_counterexample :
    (findPeaks ⟨16, 16, 8, 1, 8, 1/10, 0⟩ 16
        [0.8, 0.9, 1, 0.95, 0.5, 0, 0, 0]).map SpectralFeature.bandwidth = [1] ∧
    claimBandwidth [0.8, 0.9, 1, 0.95, 0.5, 0, 0, 0] 2 1 1 = 2 ∧
    (1 : ℝ) ≠ 2 := by
  refine ⟨?_, ?_, by norm_num⟩
  · have hbw : bandwidthLoop [4/5, 9/10, 1, 19/20, 1/2, 0, 0, 0] 2 1 1 1 = 1 := by
      refine bandwidthLoop_of_none [4/5, 9/10, 1, 19/20, 1/2, 0, 0, 0] 2 1 1 1 ?_
      rintro k hk hk20 ⟨hki, hdrop⟩
      have hk2 : k = 1 ∨ k = 2 := by omega
      rcases hk2 with rfl | rfl <;> norm_num [List.getD] at hdrop
    norm_num [findPeaks, spectrumMax, List.foldl, List.range', List.filterMap,
      peakFeatureAt, List.getD, estimateBandwidth, hbw, List.insertionSort,
      List.orderedInsert, magGE, List.map_cons, List.map_nil]
  · rw [claimBandwidth, claimBandwidthLoop]
    norm_num [List.getD]
    rw [claimBandwidthLoop]
    norm_num [List.getD]

/-! ### Claim C8 — envelope extraction -/

/-- When every read of the envelope window is a defined (integer, in-range)
index, the accumulation loop sums the absolute sample values. -/
lemma envelope_fold (xs : List ℝ) (lo : ℕ) : ∀ cnt : ℕ,
    (∀ kk : ℕ, kk < cnt →
      readIdx xs (((lo : ℕ) : ℚ) + (kk : ℚ)) = some (xs.getD (lo + kk) 0)) →
    (List.range cnt).foldl
      (fun acc k => acc.bind fun sAcc =>
        (readIdx xs (((lo : ℕ) : ℚ) + (k : ℚ))).map fun v => sAcc + |v|)
      (some 0) =
      some (((List.range cnt).map fun k => |xs.getD (lo + k) 0|).sum) := by
  intro cnt
  induction cnt with
  | zero => intro _; simp
  | succ n ih =>
    intro hread
    rw [List.range_succ, List.foldl_append, List.map_append, List.sum_append]
    rw [ih (fun kk hkk => hread kk (by omega))]
    simp only [List.foldl_cons, List.foldl_nil, Option.some_bind]
    rw [hread n (by omega)]
    simp

/-- The mean absolute sample value over the integer index window
`[lo, hi)` — used to state claim C8 (not a source function). -/
def envMean (xs : List ℝ) (lo hi : ℕ) : ℝ :=
  (((List.range' lo (hi - lo)).map fun j => |xs.getD j 0|).sum) / ((hi - lo : ℕ) : ℝ)

/-- Claim C8 (amended): the envelope always has the same length as the
input; the averaging window width is `floor(sampleRate * 0.01)` (the source
uses `Math.floor`, not `round`), and whenever that width is even and
non-negative, entry `i` is the non-negative mean of `|samples[j]|` over the
integer window `[max(0, i - w/2), min(len, i + w/2))`.  (For odd widths the
loop bounds are half-integers and the source reads undefined indices,
yielding NaN entries — `none` in this model.) -/
theorem claim_C8_envelope (sr : ℝ) (xs : List ℝ) :
    (calculateEnvelope sr xs).length = xs.length ∧
    ∀ i : ℕ, i < xs.length → 0 ≤ (⌊sr * 0.01⌋ : ℤ) → (⌊sr * 0.01⌋ : ℤ) % 2 = 0 →
      (calculateEnvelope sr xs).getD i none =
        some (envMean xs (i - (⌊sr * 0.01⌋ : ℤ).toNat / 2)
          (min xs.length (i + (⌊sr * 0.01⌋ : ℤ).toNat / 2))) ∧
      0 ≤ envMean xs (i - (⌊sr * 0.01⌋ : ℤ).toNat / 2)
          (min xs.length (i + (⌊sr * 0.01⌋ : ℤ).toNat / 2)) := by
  constructor
  · simp [calculateEnvelope]
  · intro i hi hnn heven
    obtain ⟨k, hk⟩ : ∃ k : ℕ, (⌊sr * 0.01⌋ : ℤ) = 2 * (k : ℤ) :=
      ⟨(⌊sr * 0.01⌋ : ℤ).toNat / 2, by omega⟩
    have hkt : (⌊sr * 0.01⌋ : ℤ).toNat / 2 = k := by omega
    rw [hkt]
    have hsumnn : 0 ≤ envMean xs (i - k) (min xs.length (i + k)) := by
      apply div_nonneg _ (Nat.cast_nonneg _)
      apply List.sum_nonneg
      intro x hx
      simp only [List.mem_map] at hx
      obtain ⟨j, _, rfl⟩ := hx
      exact abs_nonneg _
    refine ⟨?_, hsumnn⟩
    simp only [calculateEnvelope, envMean]
    rw [getD_range_map _ _ _ _ hi]
    have hhalf : ((⌊sr * 0.01⌋ : ℤ) : ℚ) / 2 = (k : ℚ) := by
      rw [hk]; push_cast; ring
    rw [hhalf]
    have hstart : max 0 ((i : ℚ) - (k : ℚ)) = ((i - k : ℕ) : ℚ) := by
      rcases le_or_lt k i with h | h
      · rw [max_eq_right (by
          rw [sub_nonneg]
          exact_mod_cast h)]
        push_cast [h]
        ring
      · rw [max_eq_left (by
          rw [sub_nonpos]
          exact_mod_cast h.le)]
        rw [Nat.sub_eq_zero_of_le h.le]
        norm_num
    have hstop : min ((xs.length : ℚ)) ((i : ℚ) + (k : ℚ)) =
        ((min xs.length (i + k) : ℕ) : ℚ) := by
      push_cast
      try ring_nf
    rw [hstart, hstop]
    have hlohi : i - k ≤ min xs.length (i + k) := by omega
    have hcnt : (⌈((min xs.length (i + k) : ℕ) : ℚ) - ((i - k : ℕ) : ℚ)⌉).toNat =
        min xs.length (i + k) - (i - k) := by
      rw [show ((min xs.length (i + k) : ℕ) : ℚ) - ((i - k : ℕ) : ℚ) =
          (((min xs.length (i + k) - (i - k) : ℕ) : ℤ) : ℚ) by push_cast [hlohi]; ring]
      rw [Int.ceil_intCast]
      omega
    rw [hcnt]
    have hread : ∀ kk : ℕ, kk < min xs.length (i + k) - (i - k) →
        readIdx xs (((i - k : ℕ) : ℚ) + (kk : ℚ)) = some (xs.getD ((i - k) + kk) 0) := by
      intro kk hkk
      have hcast : ((i - k : ℕ) : ℚ) + (kk : ℚ) = (((i - k) + kk : ℕ) : ℚ) := by
        push_cast; ring
      rw [hcast, readIdx, if_pos]
      · have hnum : ((i - k + kk : ℕ) : ℚ).num.toNat = i - k + kk := by
          rw [Rat.num_natCast]
          omega
        rw [hnum]
      · refine ⟨Rat.den_natCast _, ?_, ?_⟩
        · rw [Rat.num_natCast]
          exact_mod_cast Nat.zero_le _
        · rw [Rat.num_natCast]
          exact_mod_cast (by omega : (i - k) + kk < xs.length)
    rw [envelope_fold xs (i - k) _ hread]
    have hconv : (List.range (min xs.length (i + k) - (i - k))).map
        (fun kk => |xs.getD ((i - k) + kk) 0|) =
        (List.range' (i - k) (min xs.length (i + k) - (i - k))).map
          fun j => |xs.getD j 0| := by
      rw [List.range'_eq_map_range, List.map_map]
      rfl
    rcases Nat.eq_zero_or_pos (min xs.length (i + k) - (i - k)) with hz | hpos
    · rw [hz]
      simp
    · rw [if_pos hpos]
      simp only [Option.map_some']
      rw [hconv]

/-- Witness for claim C8's theorem: at sample rate 260 the window width is
`floor(2.6) = 2` (even), and entry 1 of the envelope of `[0, 1, 0, 0]` is
`(|0| + |1|)/2 = 1/2`. -/
theorem claim_C8_envelope_witness :
    (calculateEnvelope 260 [0, 1, 0, 0]).getD 1 none = some (1 / 2) := by
  have hfl : (⌊(260 : ℝ) * 0.01⌋ : ℤ) = 2 := by
    rw [Int.floor_eq_iff]
    norm_num
  have h := (claim_C8_envelope 260 [0, 1, 0, 0]).2 1 (by norm_num)
    (by rw [hfl]; norm_num) (by rw [hfl]; decide)
  rw [h.1, hfl]
  norm_num [envMean, show Int.toNat 2 = 2 from rfl]
  rw [show List.range' 0 2 = [0, 1] from by decide]
  norm_num [List.getD]

/-- Claim C8 counterexample: at sample rate 260 the claim's window width is
`round(2.6) = 3`, and the width-3 window centred at index 1 of `[0, 1, 0, 0]`
has mean `(|0| + |1| + |0|)/3 = 1/3`; the source instead uses
`floor(2.6) = 2` and produces `(|0| + |1|)/2 = 1/2 ≠ 1/3`. -/
theorem claim_C8_counterexample :
    (calculateEnvelope 260 [0, 1, 0, 0]).getD 1 none = some (1 / 2) ∧
    (1 / 2 : ℝ) ≠ (|(0 : ℝ)| + |(1 : ℝ)| + |(0 : ℝ)|) / 3 := by
  constructor
  · have hfl : (⌊(260 : ℝ) * 0.01⌋ : ℤ) = 2 := by
      rw [Int.floor_eq_iff]
      norm_num
    simp only [calculateEnvelope]
    rw [getD_range_map _ _ _ _ (by norm_num)]
    rw [hfl]
    norm_num [readIdx, show Int.toNat 2 = 2 from rfl]
    rw [show List.range 2 = [0, 1] from by decide]
    norm_num [List.getD, List.foldl_cons, List.foldl_nil]
  · norm_num

/-! ### Claim C9 — peak range and ordering -/

/-- Claim C9: every detected feature's frequency lies in
`[minFreq, maxFreq]`, the peak list is sorted by descending magnitude, and
the analysis result's `spectralFeatures` is exactly that list. -/
theorem claim_C9_peaks_range_sorted (s : AnalysisSettings) (sr : ℝ)
    (spectrum : List ℝ) :
    (∀ f ∈ findPeaks s sr spectrum,
      s.minFreq ≤ f.frequency ∧ f.frequency ≤ s.maxFreq) ∧
    List.Sorted magGE (findPeaks s sr spectrum) ∧
    (∀ (sampleRate : ℝ) (channels : List (List ℝ)),
      (analyze s sampleRate channels).spectralFeatures =
        findPeaks s sampleRate (analysisMagnitude s (downmix channels))) := by
  refine ⟨?_, ?_, fun sampleRate channels => rfl⟩
  · intro f hf
    simp only [findPeaks, List.mem_insertionSort, List.mem_filterMap] at hf
    obtain ⟨i, _, hf⟩ := hf
    simp only [peakFeatureAt] at hf
    split_ifs at hf
    all_goals simp only [Option.some.injEq] at hf
    all_goals subst hf
    all_goals assumption
  · exact List.sorted_insertionSort magGE _

/-- Concrete evaluation inputs shared by several witnesses: a 10-bin
spectrum with peaks at bins 2 (magnitude 4) and 6 (magnitude 5), sample
rate 20 (bin width 1). -/
def s1 : AnalysisSettings := ⟨16, 16, 8, 1, 10, 1/10, 0⟩

/-- The concrete magnitude spectrum used with `s1`. -/
def spectrum1 : List ℝ := [0, 0, 4, 0, 0, 0, 5, 0, 0, 0]

/-- The peaks detected in `spectrum1`: frequency 6 (magnitude 5) first,
then frequency 2 (magnitude 4). -/
lemma findPeaks_spectrum1 :
    findPeaks s1 20 spectrum1 = [⟨6, 5, 0, 1⟩, ⟨2, 4, 0, 1⟩] := by
  have hbw2 : bandwidthLoop [0, 0, 4, 0, 0, 0, 5, 0, 0, 0] 2 4 1 1 = 1 := by
    rw [bandwidthLoop]
    norm_num [List.getD]
  have hbw6 : bandwidthLoop [0, 0, 4, 0, 0, 0, 5, 0, 0, 0] 6 5 1 1 = 1 := by
    rw [bandwidthLoop]
    norm_num [List.getD]
  norm_num [findPeaks, spectrum1, s1, spectrumMax, List.foldl, List.range',
    List.filterMap, peakFeatureAt, List.getD, estimateBandwidth, hbw2, hbw6,
    List.insertionSort, List.orderedInsert, magGE]

/-- No harmonic series arises from the two `spectrum1` peaks (6 is not
within 2% of any integer multiple of either candidate fundamental, and a
series needs at least three members). -/
lemma detectHarmonics_spectrum1 :
    detectHarmonics [⟨6, 5, 0, 1⟩, ⟨2, 4, 0, 1⟩] = [] := by
  norm_num [detectHarmonics, harmonicGroups, harmonicSearch, bestMatchLoop,
    List.range', List.foldl, List.getD, List.insertionSort]

/-- Witness for claim C9's theorem: the frequency-6 peak of `spectrum1`
lies within `[s1.minFreq, s1.maxFreq] = [1, 10]`. -/
theorem claim_C9_peaks_range_sorted_witness :
    s1.minFreq ≤ (6 : ℝ) ∧ (6 : ℝ) ≤ s1.maxFreq :=
  (claim_C9_peaks_range_sorted s1 20 spectrum1).1 ⟨6, 5, 0, 1⟩
    (by rw [findPeaks_spectrum1]; exact List.mem_cons_self _ _)

/-! ### Claim C1 — fundamental-frequency selection -/

/-- Claim C1 (code bug): when no harmonic series exists, the reverse scan
over the magnitude-sorted peak list has no early exit, so the LAST
assignment wins and `fundamentalFreq` is the frequency of the
highest-magnitude peak, not of the lowest-frequency peak ≥ `minFreq` (which
is what the code's own comment, the spec and the claim describe).  On
`spectrum1` the peaks are 6 Hz (magnitude 5) and 2 Hz (magnitude 4), no
series is found, every peak is ≥ `minFreq = 1`, and the code returns 6
whereas the claim demands the lowest frequency, 2. -/
theorem claim_C1_fundamental_code_bug :
    (∀ (s : AnalysisSettings) (sr : ℝ) (channels : List (List ℝ)),
      (analyze s sr channels).fundamentalFreq =
        findFundamental s (findPeaks s sr (analysisMagnitude s (downmix channels)))
          (detectHarmonics (findPeaks s sr (analysisMagnitude s (downmix channels))))) ∧
    detectHarmonics (findPeaks s1 20 spectrum1) = [] ∧
    (findPeaks s1 20 spectrum1).map SpectralFeature.frequency = [6, 2] ∧
    findFundamental s1 (findPeaks s1 20 spectrum1)
      (detectHarmonics (findPeaks s1 20 spectrum1)) = some 6 ∧
    (6 : ℝ) ≠ 2 := by
  refine ⟨fun s sr channels => rfl, ?_, ?_, ?_, by norm_num⟩
  · rw [findPeaks_spectrum1, detectHarmonics_spectrum1]
  · rw [findPeaks_spectrum1]
    norm_num
  · rw [findPeaks_spectrum1, detectHarmonics_spectrum1]
    norm_num [findFundamental, s1, List.foldl]

/-! ### Claim C10 — harmonic grouper invariants -/

/-- Any accepted best match has index strictly above the candidate
fundamental, within the feature list, and unclaimed. -/
lemma bestMatchLoop_sound (features : List SpectralFeature) (processed : List ℕ)
    (i : ℕ) (t : ℝ) (je : ℕ × ℝ)
    (h : bestMatchLoop features processed i t = some je) :
    i < je.1 ∧ je.1 < features.length ∧ je.1 ∉ processed := by
  rw [bestMatchLoop] at h
  refine foldl_invariant
    (fun best : Option (ℕ × ℝ) => ∀ p : ℕ × ℝ, best = some p →
      i < p.1 ∧ p.1 < features.length ∧ p.1 ∉ processed)
    _ _ none (fun p hp => by cases hp) ?_ je h
  intro best j hj hbest p hp
  have hjb := List.mem_range'.mp hj
  dsimp only at hp
  split_ifs at hp with hmem hcond
  · exact hbest p hp
  · simp only [Option.some.injEq] at hp
    subst hp
    exact ⟨by omega, by omega, hmem⟩
  · exact hbest p hp

/-- Invariants of the per-candidate harmonic search: the series starts at
the candidate `i`; all members are claimed; overtone members are strictly
above `i`, in range and previously unclaimed; the claimed set grows only by
series members; the series has no duplicates. -/
lemma harmonicSearch_sound (features : List SpectralFeature) (i : ℕ)
    (processed : List ℕ) :
    (harmonicSearch features i processed).1.head? = some i ∧
    (∀ j ∈ (harmonicSearch features i processed).1,
      j ∈ (harmonicSearch features i processed).2) ∧
    (∀ j ∈ (harmonicSearch features i processed).1.tail,
      i < j ∧ j < features.length ∧ j ∉ processed) ∧
    (∀ x ∈ (harmonicSearch features i processed).2,
      x ∈ processed ∨ x ∈ (harmonicSearch features i processed).1) ∧
    (harmonicSearch features i processed).1.Nodup ∧
    (∀ x ∈ processed, x ∈ (harmonicSearch features i processed).2) := by
  simp only [harmonicSearch]
  refine foldl_invariant
    (fun st : List ℕ × List ℕ =>
      st.1.head? = some i ∧ (∀ j ∈ st.1, j ∈ st.2) ∧
      (∀ j ∈ st.1.tail, i < j ∧ j < features.length ∧ j ∉ processed) ∧
      (∀ x ∈ st.2, x ∈ processed ∨ x ∈ st.1) ∧ st.1.Nodup ∧
      (∀ x ∈ processed, x ∈ st.2))
    _ _ ([i], i :: processed) ?_ ?_
  · refine ⟨rfl, by simp, by simp, ?_, by simp, ?_⟩
    · intro x hx
      rcases List.mem_cons.mp hx with h | h
      · right
        simp [h]
      · left
        exact h
    · intro x hx
      exact List.mem_cons_of_mem _ hx
  · intro st k hk hst
    obtain ⟨hhead, hsub, htail, hgrow, hnodup, hmono⟩ := hst
    rcases hbm : bestMatchLoop features st.2 i
        ((features.getD i default).frequency * (k : ℝ)) with - | je
    · simpa [hbm] using ⟨hhead, hsub, htail, hgrow, hnodup, hmono⟩
    · obtain ⟨hij, hjlen, hjproc⟩ := bestMatchLoop_sound _ _ _ _ _ hbm
      obtain ⟨a, tl, hat⟩ : ∃ a tl, st.1 = a :: tl := by
        cases h1 : st.1 with
        | nil => rw [h1] at hhead; cases hhead
        | cons a tl => exact ⟨a, tl, rfl⟩
      have ha : a = i := by
        rw [hat] at hhead
        simpa using hhead
      simp only [hbm]
      refine ⟨?_, ?_, ?_, ?_, ?_, ?_⟩
      · rw [hat]
        simp [ha]
      · intro j hj
        rcases List.mem_append.mp hj with h | h
        · exact List.mem_cons_of_mem _ (hsub j h)
        · simp only [List.mem_singleton] at h
          subst h
          exact List.mem_cons_self _ _
      · intro j hj
        rw [hat] at hj
        simp only [List.cons_append, List.tail_cons] at hj
        rcases List.mem_append.mp hj with h | h
        · exact htail j (by rw [hat]; simpa using h)
        · simp only [List.mem_singleton] at h
          subst h
          refine ⟨hij, hjlen, ?_⟩
          intro hcon
          exact hjproc (hmono _ hcon)
      · intro x hx
        rcases List.mem_cons.mp hx with h | h
        · right
          subst h
          exact List.mem_append_right _ (List.mem_singleton_self _)
        · rcases hgrow x h with h' | h'
          · exact Or.inl h'
          · exact Or.inr (List.mem_append_left _ h')
      · rw [List.nodup_append]
        refine ⟨hnodup, List.nodup_singleton _, ?_⟩
        intro x hx hx'
        simp only [List.mem_singleton] at hx'
        subst hx'
        exact hjproc (hsub _ hx)
      · intro x hx
        exact List.mem_cons_of_mem _ (hmono x hx)

/-- Invariants of the grouping loop: every returned series is nonempty,
headed by its candidate fundamental (whose index is in range and strictly
below all other members, themselves in range), duplicate-free — and the
series are pairwise disjoint. -/
lemma harmonicGroups_sound (features : List SpectralFeature) :
    (∀ g ∈ harmonicGroups features,
      (∃ a tl, g = a :: tl ∧ a < features.length ∧
        ∀ j ∈ tl, a < j ∧ j < features.length) ∧ g.Nodup) ∧
    List.Pairwise (fun g₁ g₂ => ∀ j ∈ g₁, j ∉ g₂) (harmonicGroups features) := by
  simp only [harmonicGroups]
  have H := foldl_invariant
    (fun st : List (List ℕ) × List ℕ =>
      (∀ g ∈ st.1,
        ((∃ a tl, g = a :: tl ∧ a < features.length ∧
          ∀ j ∈ tl, a < j ∧ j < features.length) ∧ g.Nodup) ∧
        ∀ j ∈ g, j ∈ st.2) ∧
      List.Pairwise (fun g₁ g₂ => ∀ j ∈ g₁, j ∉ g₂) st.1)
    (fun st i =>
      if i ∈ st.2 then st
      else
        if 3 ≤ (harmonicSearch features i st.2).1.length then
          (st.1 ++ [(harmonicSearch features i st.2).1], (harmonicSearch features i st.2).2)
        else (st.1, (harmonicSearch features i st.2).2))
    (List.range (min features.length 50)) ([], []) ⟨by simp, by simp⟩ ?_
  · exact ⟨fun g hg => (H.1 g hg).1, H.2⟩
  · intro st k hk hst
    obtain ⟨hgroups, hpw⟩ := hst
    have hklen : k < features.length := by
      have := List.mem_range.mp hk
      omega
    dsimp only
    split_ifs with hmem hkeep
    · exact ⟨hgroups, hpw⟩
    · obtain ⟨hhead, hsub, htail, _, hnodup, hmono⟩ :=
        harmonicSearch_sound features k st.2
      obtain ⟨a, tl, hat⟩ : ∃ a tl, (harmonicSearch features k st.2).1 = a :: tl := by
        cases h1 : (harmonicSearch features k st.2).1 with
        | nil => rw [h1] at hhead; cases hhead
        | cons a tl => exact ⟨a, tl, rfl⟩
      have ha : a = k := by
        rw [hat] at hhead
        simpa using hhead
      subst ha
      constructor
      · intro g hg
        rcases List.mem_append.mp hg with h | h
        · refine ⟨(hgroups g h).1, ?_⟩
          intro j hj
          exact hmono _ ((hgroups g h).2 j hj)
        · simp only [List.mem_singleton] at h
          subst h
          refine ⟨⟨⟨a, tl, hat, hklen, ?_⟩, hnodup⟩, ?_⟩
          · intro j hj
            have := htail j (by rw [hat]; simpa using hj)
            exact ⟨this.1, this.2.1⟩
          · intro j hj
            exact hsub j hj
      · rw [List.pairwise_append]
        refine ⟨hpw, List.pairwise_singleton _ _, ?_⟩
        intro g hg g' hg'
        simp only [List.mem_singleton] at hg'
        subst hg'
        intro j hj hj'
        have hjin : j ∈ st.2 := (hgroups g hg).2 j hj
        rw [hat] at hj'
        rcases List.mem_cons.mp hj' with h | h
        · subst h
          exact hmem hjin
        · exact (htail j (by rw [hat]; simpa using h)).2.2 hjin
    · obtain ⟨_, _, _, _, _, hmono⟩ := harmonicSearch_sound features k st.2
      refine ⟨?_, hpw⟩
      intro g hg
      refine ⟨(hgroups g hg).1, ?_⟩
      intro j hj
      exact hmono _ ((hgroups g hg).2 j hj)

/-- Entries of a descending-magnitude list compare as their indices do. -/
lemma magGE_getD {features : List SpectralFeature}
    (h : List.Pairwise magGE features) {a j : ℕ} (haj : a < j)
    (hj : j < features.length) :
    (features.getD j default).magnitude ≤ (features.getD a default).magnitude := by
  have ha : a < features.length := by omega
  have hp := List.pairwise_iff_get.mp h ⟨a, ha⟩ ⟨j, hj⟩ haj
  rw [List.getD_eq_getElem _ _ ha, List.getD_eq_getElem _ _ hj]
  exact hp

/-- Claim C10: for a magnitude-sorted feature list, the harmonic grouper's
series are pairwise disjoint (as sets of claimed peak indices), and every
returned `HarmonicSeries` is built from one such series, has the candidate
fundamental as the first overtone, and the fundamental's magnitude bounds
every member's magnitude. -/
theorem claim_C10_harmonics_invariants (features : List SpectralFeature)
    (hsorted : List.Pairwise magGE features) :
    List.Pairwise (fun g₁ g₂ => ∀ j ∈ g₁, j ∉ g₂) (harmonicGroups features) ∧
    ∀ h ∈ detectHarmonics features, ∃ g ∈ harmonicGroups features,
      h = mkSeries features g ∧
      h.overtones.head? = some (features.getD (g.headD 0) default) ∧
      h.fundamental = (features.getD (g.headD 0) default).frequency ∧
      ∀ f ∈ h.overtones,
        f.magnitude ≤ (features.getD (g.headD 0) default).magnitude := by
  obtain ⟨hgs, hpw⟩ := harmonicGroups_sound features
  refine ⟨hpw, ?_⟩
  intro h hh
  simp only [detectHarmonics, List.mem_insertionSort, List.mem_map] at hh
  obtain ⟨g, hg, rfl⟩ := hh
  obtain ⟨⟨a, tl, rfl, halen, htail⟩, hnodup⟩ := hgs g hg
  refine ⟨a :: tl, hg, rfl, ?_, ?_, ?_⟩
  · simp [mkSeries]
  · simp [mkSeries]
  · intro f hf
    simp only [mkSeries, List.map_cons, List.headD_cons] at hf ⊢
    rcases List.mem_cons.mp hf with rfl | hft
    · exact le_refl _
    · simp only [List.mem_map] at hft
      obtain ⟨j, hj, rfl⟩ := hft
      exact magGE_getD hsorted (htail j hj).1 (htail j hj).2

/-- A magnitude-sorted list of three harmonically related peaks
(100, 200, 300 Hz). -/
def features3 : List SpectralFeature :=
  [⟨100, 10, 0, 1⟩, ⟨200, 8, 0, 1⟩, ⟨300, 6, 0, 1⟩]

/-- The harmonic search started at the strongest `features3` peak claims
the 200 Hz peak as harmonic 2 and the 300 Hz peak as harmonic 3. -/
lemma harmonicSearch_features3 :
    harmonicSearch features3 0 [] = ([0, 1, 2], [2, 1, 0]) := by
  have hb2 : ∀ pr : List ℕ, 1 ∉ pr →
      bestMatchLoop features3 pr 0
        ((features3.getD 0 default).frequency * ((2 : ℕ) : ℝ)) = some (1, 0) := by
    intro pr hpr
    rw [bestMatchLoop]
    rw [show List.range' (0 + 1) (features3.length - (0 + 1)) = [1, 2] from by decide]
    rw [List.foldl_cons, List.foldl_cons, List.foldl_nil]
    rw [if_neg hpr]
    norm_num [features3, List.getD]
    intro x x1 h
    cases h
  have hb3 : ∀ pr : List ℕ, 1 ∈ pr → 2 ∉ pr →
      bestMatchLoop features3 pr 0
        ((features3.getD 0 default).frequency * ((3 : ℕ) : ℝ)) = some (2, 0) := by
    intro pr hpr1 hpr2
    rw [bestMatchLoop]
    rw [show List.range' (0 + 1) (features3.length - (0 + 1)) = [1, 2] from by decide]
    rw [List.foldl_cons, List.foldl_cons, List.foldl_nil]
    rw [if_pos hpr1, if_neg hpr2]
    norm_num [features3, List.getD]
    intro x x1 h
    cases h
  have hbnone : ∀ (pr : List ℕ) (t : ℝ), 1 ∈ pr → 2 ∈ pr →
      bestMatchLoop features3 pr 0 t = none := by
    intro pr t h1 h2
    rw [bestMatchLoop]
    rw [show List.range' (0 + 1) (features3.length - (0 + 1)) = [1, 2] from by decide]
    rw [List.foldl_cons, List.foldl_cons, List.foldl_nil, if_pos h1, if_pos h2]
  rw [harmonicSearch]
  rw [show List.range' 2 19 = 2 :: 3 :: List.range' 4 17 from by decide]
  rw [List.foldl_cons, List.foldl_cons]
  simp only [hb2 [0] (by decide), hb3 [1, 0] (by decide) (by decide)]
  refine foldl_invariant (fun st => st = ([0, 1, 2], [2, 1, 0])) _ _ _ rfl ?_
  intro b a ha hb
  subst hb
  simp only [hbnone [2, 1, 0] _ (by decide) (by decide)]

/-- The grouper claims all three `features3` peaks into one series. -/
lemma harmonicGroups_features3 : harmonicGroups features3 = [[0, 1, 2]] := by
  rw [harmonicGroups]
  rw [show List.range (min features3.length 50) = [0, 1, 2] from by decide]
  rw [List.foldl_cons, List.foldl_cons, List.foldl_cons, List.foldl_nil]
  norm_num [harmonicSearch_features3]

/-- Witness for claim C10's theorem on `features3` (one series, `[0, 1, 2]`,
trivially pairwise disjoint). -/
theorem claim_C10_harmonics_invariants_witness :
    List.Pairwise (fun g₁ g₂ => ∀ j ∈ g₁, j ∉ g₂) (harmonicGroups features3) ∧
    harmonicGroups features3 = [[0, 1, 2]] :=
  ⟨(claim_C10_harmonics_invariants features3
      (by norm_num [features3, List.pairwise_cons, magGE])).1,
    harmonicGroups_features3⟩

end WavArtist
